import Mathlib

/-
  Verification of the apm-hub query-routing / log-search core.

  Shallow embedding of the Go sources:
    * api/logs (part_000): SearchParams, SearchRoute, Routes.MatchRoute,
      SearchResults.Append, Result.Process, SearchParams.SetDefaults,
      SearchParams.GetStart.
    * pkg/opensearch/search.go (final revision, lines 521-698): over-fetch
      pagination (getNextPage, getResultsFromHits) and label flattening.
    * pkg/elasticsearch/search.go: Search tolerance for malformed bodies,
      getTotalResultsCount, getNextPage.
    * controllers/apmhubconfig_controller.go: removeBackendFromGlobalBackends.
    * utils/hash.go: content hash (kept abstract as a function parameter).

  Go maps are modelled as association lists; Go `int`/`int64` as `Int`
  (no arithmetic here approaches 2^63, so wrap-around never matters);
  JSON numbers (`float64` after decoding) as integral values `Int`,
  which coincides with Go for all integer-valued numbers used below.
-/

/-- A JSON value as produced by Go `encoding/json` decoding into
`map[string]any` / `[]any` / `string` / `float64` / `bool` / `nil`.
Numbers are modelled as integers (see header comment). Objects are
association lists; Go marshals `map[string]any` with keys in sorted order,
so object lists are maintained in that order by convention. -/
inductive JsonValue where
  | str : String → JsonValue
  | num : Int → JsonValue
  | bool : Bool → JsonValue
  | null : JsonValue
  | arr : List JsonValue → JsonValue
  | obj : List (String × JsonValue) → JsonValue

/-- Lower-case hex digit. -/
def hexDigit (n : Nat) : Char :=
  if n < 10 then Char.ofNat (48 + n) else Char.ofNat (87 + n)

/-- Four-digit lower-case hex rendering, as in Go's `\u00xx` escapes. -/
def hex4 (n : Nat) : String :=
  String.mk [hexDigit (n / 4096 % 16), hexDigit (n / 256 % 16),
             hexDigit (n / 16 % 16), hexDigit (n % 16)]

/-- One character of Go `encoding/json` string escaping (HTML escaping on,
as in plain `json.Marshal`). -/
def jsonEscapeChar (c : Char) : String :=
  if c = '"' then "\\\""
  else if c = '\\' then "\\\\"
  else if c = '\n' then "\\n"
  else if c = '\r' then "\\r"
  else if c = '\t' then "\\t"
  else if c = '<' then "\\u003c"
  else if c = '>' then "\\u003e"
  else if c = '&' then "\\u0026"
  else if c.toNat < 32 then "\\u" ++ hex4 c.toNat
  else if c.toNat = 8232 then "\\u2028"
  else if c.toNat = 8233 then "\\u2029"
  else String.mk [c]

/-- Go `encoding/json` quoted-string rendering. -/
def jsonQuote (s : String) : String :=
  "\"" ++ String.join (s.toList.map jsonEscapeChar) ++ "\""

mutual
/-- Go `json.Marshal` on decoded JSON values (model; object keys are
marshalled in list order, which by convention is Go's sorted-key order). -/
def jsonMarshal : JsonValue → String
  | .str s => jsonQuote s
  | .num n => toString n
  | .bool b => Bool.rec "false" "true" b
  | .null => "null"
  | .arr l => "[" ++ String.intercalate "," (jsonMarshalList l) ++ "]"
  | .obj l => "\x7b" ++ String.intercalate "," (jsonMarshalObj l) ++ "\x7d"

/-- Marshalled renderings of the elements of a JSON array. -/
def jsonMarshalList : List JsonValue → List String
  | [] => []
  | v :: vs => jsonMarshal v :: jsonMarshalList vs

/-- Marshalled `"key":value` entries of a JSON object. -/
def jsonMarshalObj : List (String × JsonValue) → List String
  | [] => []
  | kv :: kvs => (jsonQuote kv.1 ++ ":" ++ jsonMarshal kv.2) :: jsonMarshalObj kvs
end

/-- Go type assertion `.(map[string]any)`. -/
def JsonValue.asObj : JsonValue → Option (List (String × JsonValue))
  | .obj l => some l
  | _ => none

/-- Go type assertion `.([]any)`. -/
def JsonValue.asArr : JsonValue → Option (List JsonValue)
  | .arr l => some l
  | _ => none

/-- Go type assertion `.(float64)` on a decoded JSON number. -/
def JsonValue.asNum : JsonValue → Option Int
  | .num n => some n
  | _ => none

/-- Go type assertion `.(string)`. -/
def JsonValue.asStr : JsonValue → Option String
  | .str s => some s
  | _ => none

example : jsonMarshal (.arr [.num 1699, .str "a"]) = "[1699,\"a\"]" := by rfl
example : jsonMarshal (.obj [("a", .num 1)]) = "\x7b\"a\":1\x7d" := by rfl

/-! ### Go string / time helpers shared by the `logs` package -/

/-- Go `unicode.IsSpace`, restricted to the Latin-1 range that actually
occurs in log messages (space, \t, \n, \v, \f, \r, NEL, NBSP); the wider
Unicode space categories are not modelled. Used by both `bufio.ScanWords`
and `strings.TrimSpace`. -/
def isSpaceChar (c : Char) : Bool :=
  c = ' ' || c = '\t' || c = '\n' || c = Char.ofNat 11 || c = Char.ofNat 12 ||
  c = '\r' || c = Char.ofNat 133 || c = Char.ofNat 160

/-- Go `strings.TrimSpace` (with the space predicate above). -/
def goTrimSpace (s : String) : String :=
  String.mk (((s.toList.dropWhile isSpaceChar).reverse.dropWhile isSpaceChar).reverse)

/-- The first token produced by a `bufio.Scanner` in `bufio.ScanWords` mode:
skip leading whitespace, then take the maximal run of non-space characters.
`none` when the input has no token (empty or all-space), i.e. when
`scanner.Scan()` returns `false`. -/
def firstScanWord (s : String) : Option String :=
  match s.toList.dropWhile isSpaceChar with
  | [] => none
  | l => some (String.mk (l.takeWhile (fun c => !isSpaceChar c)))

/-- Go `strings.HasPrefix`. For valid UTF-8 strings a byte-level prefix is
exactly a character-level prefix, so this is `List.isPrefixOf` on the
character lists. -/
def goHasPrefix (pre s : String) : Bool :=
  List.isPrefixOf pre.toList s.toList

/-- Go `strings.Split` with a one-character separator: the fields between
occurrences of `sep`, always at least one (the empty input yields `[[]]`,
matching Go's `[""]`). -/
def goSplitChar (sep : Char) : List Char → List (List Char)
  | [] => [[]]
  | c :: rest =>
    if c = sep then [] :: goSplitChar sep rest
    else
      match goSplitChar sep rest with
      | [] => [[c]]
      | w :: ws => (c :: w) :: ws

/-- Go `strings.Split(v, ",")`. -/
def goSplitComma (s : String) : List String :=
  (goSplitChar ',' s.toList).map String.mk

example : goSplitComma "prod,staging" = ["prod", "staging"] := by rfl
example : goSplitComma "" = [""] := by rfl
example : goSplitComma "a,,b" = ["a", "", "b"] := by rfl

/-- One pass of Go `strings.Replace(s, old, new, -1)` for a non-empty
pattern `o :: os`: scan left to right, replacing non-overlapping
occurrences. `fuel` is an upper bound on the number of steps (each step
consumes at least one character), so with `fuel = length` the exhausted
case is unreachable; it makes the recursion structural. -/
def replaceAllAux (o : Char) (os new : List Char) : Nat → List Char → List Char
  | _, [] => []
  | 0, l => l
  | fuel + 1, c :: rest =>
    if List.isPrefixOf (o :: os) (c :: rest) then
      new ++ replaceAllAux o os new fuel (rest.drop os.length)
    else c :: replaceAllAux o os new fuel rest

/-- Go `strings.ReplaceAll(s, old, new)`. The empty-pattern case (Go
inserts `new` between every pair of characters) is left as the identity:
the only caller passes a non-empty token. -/
def goReplaceAll (s old new : String) : String :=
  match old.toList with
  | [] => s
  | o :: os => String.mk (replaceAllAux o os new.toList s.toList.length s.toList)

example : goReplaceAll "aXbXc" "X" "" = "abc" := by rfl
example : goReplaceAll "aaa" "aa" "b" = "ba" := by rfl

/-- ASCII decimal digit. -/
def isDigitChar (c : Char) : Bool := '0' ≤ c && c ≤ '9'

/-- Value of a list of decimal digits. -/
def digitsToNat (l : List Char) : Nat :=
  l.foldl (fun a c => a * 10 + (c.toNat - 48)) 0

/-- Gregorian leap year, as in Go's `time` package. -/
def isLeapYear (y : Nat) : Bool :=
  (y % 4 = 0 && y % 100 ≠ 0) || y % 400 = 0

/-- Days in a month, as validated by Go `time.Parse`. -/
def daysInMonth (y m : Nat) : Nat :=
  if m = 2 then (if isLeapYear y then 29 else 28)
  else if m = 4 || m = 6 || m = 9 || m = 11 then 30
  else 31

/-- Days from the civil date `y-m-d` to the Unix epoch 1970-01-01
(standard days-from-civil algorithm; exact for all four-digit years). -/
def daysFromCivil (y m d : Nat) : Int :=
  let yi : Int := if m ≤ 2 then (y : Int) - 1 else (y : Int)
  let era : Int := (if 0 ≤ yi then yi else yi - 399) / 400
  let yoe : Int := yi - era * 400
  let mp : Nat := if 3 ≤ m then m - 3 else m + 9
  let doy : Int := ((153 * mp + 2) / 5 + d - 1 : Nat)
  let doe : Int := yoe * 365 + yoe / 4 - yoe / 100 + doy
  era * 146097 + doe - 719468

/-- The `Z` / `±hh:mm` suffix of an RFC3339 timestamp, as the zone offset in
seconds. Mirrors the strict RFC3339 path of Go `time.Parse` (Go ≥ 1.20, which
this repository builds with): offset hours 0-23, minutes 0-59. -/
def parseZoneOffset : List Char → Option Int
  | ['Z'] => some 0
  | [c, h1, h2, ':', m1, m2] =>
    if (c = '+' || c = '-') && [h1, h2, m1, m2].all isDigitChar then
      let hh := digitsToNat [h1, h2]
      let mm := digitsToNat [m1, m2]
      if hh ≤ 23 && mm ≤ 59 then
        let off : Int := hh * 3600 + mm * 60
        some (if c = '-' then -off else off)
      else none
    else none
  | _ => none

/-- Optional fractional seconds (ignored for the instant, like Go's
sub-second truncation to whole seconds in this model) followed by the zone. -/
def parseFracThenZone (l : List Char) : Option Int :=
  match l with
  | c :: rest =>
    if c = '.' || c = ',' then
      let ds := rest.takeWhile isDigitChar
      if ds = [] then none else parseZoneOffset (rest.drop ds.length)
    else parseZoneOffset l
  | [] => none

/-- Go `time.Parse(time.RFC3339, s)`, modelled as the Unix-epoch second of
the parsed instant (`none` = parse error). Field ranges are those checked by
Go's strict RFC3339 path: month 1-12, day 1-`daysInMonth`, hour ≤ 23,
minute ≤ 59, second ≤ 59, literal `T`, zone `Z` or `±hh:mm`. -/
def parseRFC3339? (s : String) : Option Int :=
  match s.toList with
  | y1 :: y2 :: y3 :: y4 :: '-' :: m1 :: m2 :: '-' :: d1 :: d2 :: 'T' ::
    h1 :: h2 :: ':' :: n1 :: n2 :: ':' :: s1 :: s2 :: rest =>
    if [y1, y2, y3, y4, m1, m2, d1, d2, h1, h2, n1, n2, s1, s2].all isDigitChar then
      let y := digitsToNat [y1, y2, y3, y4]
      let mo := digitsToNat [m1, m2]
      let da := digitsToNat [d1, d2]
      let hh := digitsToNat [h1, h2]
      let mi := digitsToNat [n1, n2]
      let se := digitsToNat [s1, s2]
      if 1 ≤ mo && mo ≤ 12 && 1 ≤ da && da ≤ daysInMonth y mo &&
         hh ≤ 23 && mi ≤ 59 && se ≤ 59 then
        match parseFracThenZone rest with
        | some off => some (daysFromCivil y mo da * 86400 + hh * 3600 + mi * 60 + se - off)
        | none => none
      else none
    else none
  | _ => none

/-- Whether Go `time.Parse(time.RFC3339, s)` succeeds. -/
def isRFC3339 (s : String) : Bool := (parseRFC3339? s).isSome

example : parseRFC3339? "1970-01-01T00:00:00Z" = some 0 := by rfl
example : parseRFC3339? "2024-01-01T00:00:00Z" = some 1704067200 := by rfl
example : parseRFC3339? "2024-01-01T01:00:00+01:00" = some 1704067200 := by rfl
example : isRFC3339 "2024-02-30T00:00:00Z" = false := by rfl
example : isRFC3339 "worker" = false := by rfl

/-- Modelled from the spec: the relative-age duration parser is the external
`duration.ParseDuration` dependency (flanksource/commons), not part of this
repository. The spec describes its inputs as "a relative-age expression,
e.g. \"1h\", \"2d\", \"1w\"": a decimal count followed by a unit, here
returned as a number of seconds. -/
def parseAgeDuration (s : String) : Option Int :=
  let cs := s.toList
  let ds := cs.takeWhile isDigitChar
  if ds = [] then none
  else
    let n : Int := digitsToNat ds
    match cs.drop ds.length with
    | ['s'] => some n
    | ['m'] => some (n * 60)
    | ['h'] => some (n * 3600)
    | ['d'] => some (n * 86400)
    | ['w'] => some (n * 604800)
    | _ => none

example : parseAgeDuration "1h" = some 3600 := by rfl
example : parseAgeDuration "2024-01-01T00:00:00Z" = none := by rfl

/-! ### The `logs` package (api/logs, src/unnamed/part_000) -/

namespace Logs

/-- `logs.Result`. `Labels` is a Go `map[string]string`, modelled as an
association list. -/
structure Result where
  Id : String := ""
  Time : String := ""
  Message : String := ""
  Labels : List (String × String) := []
deriving DecidableEq

/-- `logs.SearchResults`. -/
structure SearchResults where
  Total : Int := 0
  Results : List Result := []
  NextPage : String := ""
deriving DecidableEq

/-- `logs.SearchResults.Append`: the router's merge step. Note that
`r.NextPage = other.NextPage` is an unconditional overwrite. -/
def SearchResults.Append (r other : SearchResults) : SearchResults :=
  { Results := r.Results ++ other.Results
    Total := r.Total + other.Total
    NextPage := other.NextPage }

/-- `logs.SearchParams`. Go field `Type` is rendered `Typ` (Lean keyword);
the unexported cache fields `start`/`end` are `start`/`end_`. Instants are
Unix-epoch seconds. -/
structure SearchParams where
  Limit : Int := 0
  LimitBytes : Int := 0
  Page : String := ""
  Labels : List (String × String) := []
  Query : String := ""
  Start : String := ""
  End : String := ""
  Typ : String := ""
  Id : String := ""
  LimitPerItem : Int := 0
  LimitBytesPerItem : Int := 0
  start : Option Int := none
  end_ : Option Int := none
deriving DecidableEq

/-- `logs.SearchParams.SetDefaults`. -/
def SearchParams.SetDefaults (t : SearchParams) : SearchParams :=
  let t := if t.Start = "" then { t with Start := "1h" } else t
  let t := if t.LimitPerItem = 0 then { t with LimitPerItem := 100 } else t
  let t := if t.Limit ≤ 0 then { t with Limit := 50 } else t
  if t.LimitBytesPerItem = 0 then { t with LimitBytesPerItem := 100 * 1024 } else t

/-- `logs.SearchParams.GetStart`. The Go method mutates its receiver through
a pointer (`p.start = &t`); the model passes the state explicitly and returns
the updated receiver. `now` stands for `time.Now()` at the moment of the
call. The age-string branch is tried first, then RFC3339, as in the source. -/
def SearchParams.GetStart (now : Int) (p : SearchParams) : Option Int × SearchParams :=
  match p.start with
  | some t => (some t, p)
  | none =>
    match parseAgeDuration p.Start with
    | some duration =>
      let t := now - duration
      (some t, { p with start := some t })
    | none =>
      match parseRFC3339? p.Start with
      | some t => (some t, { p with start := some t })
      | none => (none, p)

/-- `logs.Result.Process`: promote a leading RFC3339 token of the message to
the `Time` field. `String.replace` models Go `strings.ReplaceAll` (all
occurrences, the pattern being the non-empty leading token); the final
`goTrimSpace` models the unconditional `strings.TrimSpace`. -/
def Result.Process (r : Result) : Result :=
  let r :=
    match firstScanWord r.Message with
    | some timestamp =>
      if isRFC3339 timestamp then
        { r with Time := timestamp, Message := goReplaceAll r.Message timestamp "" }
      else r
    | none => r
  { r with Message := goTrimSpace r.Message }

/-- Modelled from the spec: `collections.MatchItems` is an external
dependency (flanksource/commons), not part of this repository. Per the
spec, a query label value matches when it "is one of the comma-split values
configured for the key". -/
def matchItems (item : String) (items : List String) : Bool :=
  items.contains item

/-- `logs.SearchRoute`. Go field `Type` is rendered `Typ`. -/
structure SearchRoute where
  Typ : String := ""
  IdPrefix : String := ""
  Labels : List (String × String) := []
  IsAdditive : Bool := false
deriving DecidableEq

/-- `logs.SearchRoute.Match`. The loop over `t.Labels` returns `false` on
the first failing key and `true` once all pass; as a conjunction over the
(order-irrelevant) map entries this is `List.all`. -/
def SearchRoute.Match (t : SearchRoute) (q : SearchParams) : Bool :=
  if t.Typ != "" && t.Typ != q.Typ then false
  else if t.IdPrefix != "" && !(goHasPrefix t.IdPrefix q.Id) then false
  else t.Labels.all fun kv =>
    match List.lookup kv.1 q.Labels with
    | none => false
    | some qVal => matchItems qVal (goSplitComma kv.2)

/-- `logs.Routes.MatchRoute`: first matching route wins. -/
def MatchRoute (t : List SearchRoute) (q : SearchParams) : Bool × Bool :=
  match t with
  | [] => (false, false)
  | route :: rest => if route.Match q then (true, route.IsAdditive) else MatchRoute rest q

/-- `logs.ElasticSearchFields` (the compiled-regexp companion field is only
used by superseded revisions of the adapter and is omitted). -/
structure ElasticSearchFields where
  Timestamp : String := ""
  Message : String := ""
  Exclusions : List String := []
deriving DecidableEq

end Logs

/-! ### The OpenSearch adapter (pkg/opensearch, final revision) -/

namespace OpenSearch

/-- `opensearch.TotalHitsInfo` (`Value` is `int64`). -/
structure TotalHitsInfo where
  Value : Int := 0
  Relation : String := ""
deriving DecidableEq

/-- `opensearch.ElasticsearchHit`. Go field `Type` is rendered `Typ` and
`Sort` is rendered `Sort_` (both Lean keywords); `Score` (`float64`) is
modelled integrally like all JSON numbers here. -/
structure ElasticsearchHit where
  Index : String := ""
  Typ : String := ""
  ID : String := ""
  Score : Int := 0
  Sort_ : List JsonValue := []
  Source : List (String × JsonValue) := []

/-- `opensearch.HitsInfo` (`MaxScore` modelled integrally). -/
structure HitsInfo where
  Total : TotalHitsInfo := {}
  MaxScore : Int := 0
  Hits : List ElasticsearchHit := []

/-- `opensearch.OpenSearchResponse` (`Took` modelled integrally). -/
structure OpenSearchResponse where
  Took : Int := 0
  TimedOut : Bool := false
  Hits : HitsInfo := {}

/-- `opensearch.stringify`: strings pass through verbatim, everything else is
`json.Marshal`ed. Marshalling a decoded JSON value never fails, so the Go
error return (`("", err)`) is unreachable and the model is total. -/
def stringify (val : JsonValue) : String :=
  match val with
  | .str v => v
  | v => jsonMarshal v

mutual
/-- `flatten.Flatten` (jeremywohl/flatten, DotStyle) over a decoded JSON
object: `top` is true only at the outermost level, where keys carry no dot
separator (the call site passes the empty top-level key). -/
def flattenObj (top : Bool) (pre : String) : List (String × JsonValue) → List (String × JsonValue)
  | [] => []
  | (k, v) :: rest =>
    flattenAssign (if top then pre ++ k else pre ++ "." ++ k) v ++ flattenObj top pre rest

/-- Array flattening of `flatten.Flatten`: elements are keyed by decimal index. -/
def flattenArr (top : Bool) (pre : String) (i : Nat) : List JsonValue → List (String × JsonValue)
  | [] => []
  | v :: rest =>
    flattenAssign (if top then pre ++ toString i else pre ++ "." ++ toString i) v ++
      flattenArr top pre (i + 1) rest

/-- The `assign` step of `flatten.Flatten`: nested objects and arrays recurse
(no longer at top level), scalars become leaves. -/
def flattenAssign (key : String) : JsonValue → List (String × JsonValue)
  | .obj kvs => flattenObj false key kvs
  | .arr l => flattenArr false key 0 l
  | v => [(key, v)]
end

example : flattenObj true "" [("a", .obj [("b", .num 1)])] = [("a.b", .num 1)] := by rfl

/-- `(*OpenSearchBackend).extractLabelsFromSource` (final revision): drop the
message field, the timestamp field and the explicitly excluded keys
(`collections.Contains fields k` is plain membership), flatten what remains
with dot-joined keys, then stringify every leaf. `flatten.Flatten` only
fails on non-map input, and the input is always a map here, so the error
return is unreachable and the model is total. -/
def extractLabelsFromSource (f : Logs.ElasticSearchFields)
    (src : List (String × JsonValue)) (fields : List String) : List (String × String) :=
  let sourceAfterExclusion := src.filter fun kv =>
    !(kv.1 = f.Message || kv.1 = f.Timestamp || fields.contains kv.1)
  let flattenedLabels := flattenObj true "" sourceAfterExclusion
  flattenedLabels.map fun kv => (kv.1, stringify kv.2)

/-- The `logs.Result` built from one hit by the loop body of
`getResultsFromHits`, given that the message field is present (the
`msgField` value passed in is the looked-up source entry). -/
def rowResult (f : Logs.ElasticSearchFields) (row : ElasticsearchHit) : Logs.Result :=
  { Id := row.ID
    Message := stringify ((List.lookup f.Message row.Source).getD .null)
    Time := ((List.lookup f.Timestamp row.Source).getD .null).asStr.getD ""
    Labels := extractLabelsFromSource f row.Source f.Exclusions }

/-- `(*OpenSearchBackend).getResultsFromHits` (final revision, over-fetch
variant): truncate to `requestedRowsCount` rows, then convert each row,
skipping rows whose source lacks the configured message field. -/
def getResultsFromHits (f : Logs.ElasticSearchFields) (requestedRowsCount : Int)
    (rows : List ElasticsearchHit) : List Logs.Result :=
  let rows := if (rows.length : Int) > requestedRowsCount
              then rows.take requestedRowsCount.toNat else rows
  rows.filterMap fun row =>
    match List.lookup f.Message row.Source with
    | none => none
    | some _ => some (rowResult f row)

/-- `opensearch.getNextPage` (final revision, over-fetch variant). When more
than the requested count came back, the cursor is the stringified `sort` key
of `rows[len(rows)-2]` — the last row kept after truncation. The
`rows.get?` fallback of `""` stands for the Go index-out-of-range panic at
`len(rows) = 1`, which is unreachable for `requestedRowsCount ≥ 1`. -/
def getNextPage (requestedRowsCount : Int) (rows : List ElasticsearchHit) : String :=
  if rows.length = 0 then ""
  else if requestedRowsCount ≥ (rows.length : Int) then ""
  else
    match rows.get? (rows.length - 2) with
    | some lastItem => stringify (.arr lastItem.Sort_)
    | none => ""

/-- The post-decode tail of `(*OpenSearchBackend).Search` (final revision):
assemble the `SearchResults` from the decoded `OpenSearchResponse`. The
second component models the returned `error`, which is `nil` on this path. -/
def searchFromDecoded (f : Logs.ElasticSearchFields) (limit : Int)
    (r : OpenSearchResponse) : Logs.SearchResults × Option String :=
  ({ Results := getResultsFromHits f limit r.Hits.Hits
     Total := r.Hits.Total.Value
     NextPage := getNextPage limit r.Hits.Hits }, none)

end OpenSearch

/-! ### The ElasticSearch adapter (pkg/elasticsearch/search.go) -/

namespace ElasticSearch

/-- `elasticsearch.getNextPage`: constantly the empty cursor. -/
def getNextPage (_hits : List (String × JsonValue)) : String := ""

/-- `elasticsearch.getTotalResultsCount`: `hits["total"].(map[string]any)`
then `total["value"].(float64)`, with `0` whenever an assertion fails. -/
def getTotalResultsCount (hits : List (String × JsonValue)) : Int :=
  match (List.lookup "total" hits).bind JsonValue.asObj with
  | none => 0
  | some total =>
    match (List.lookup "value" total).bind JsonValue.asNum with
    | none => 0
    | some val => val

/-- `elasticsearch.getResultsFromHits`: each hit that is an object becomes a
result whose message is the re-marshalled `_source` (a failed
`_source` assertion leaves the nil map, which marshals to `"null"`);
non-object hits are skipped. `json.Marshal` cannot fail on decoded values,
so the marshal-error skip is unreachable. -/
def getResultsFromHits (data : List JsonValue) : List Logs.Result :=
  data.filterMap fun v =>
    match v with
    | .obj d =>
      let id := ((List.lookup "_id" d).getD .null).asStr.getD ""
      let idx := ((List.lookup "_index" d).getD .null).asStr.getD ""
      let msg :=
        match (List.lookup "_source" d).bind JsonValue.asObj with
        | some source => jsonMarshal (.obj source)
        | none => jsonMarshal .null
      some { Id := id, Message := msg, Labels := [("index", idx)] }
    | _ => none

/-- The post-decode tail of `(*ElasticSearchBackend).Search`: a missing or
non-object `hits`, or a missing or non-array `hits.hits`, yields the zero
`SearchResults`; the second component models the returned `error`, which is
`nil` on every path after a successful decode. -/
def searchFromDecoded (r : List (String × JsonValue)) : Logs.SearchResults × Option String :=
  match (List.lookup "hits" r).bind JsonValue.asObj with
  | none => ({}, none)
  | some hits =>
    match (List.lookup "hits" hits).bind JsonValue.asArr with
    | none => ({}, none)
    | some data =>
      ({ Results := getResultsFromHits data
         Total := getTotalResultsCount hits
         NextPage := getNextPage hits }, none)

end ElasticSearch

/-! ### The config controller (controllers/apmhubconfig_controller.go) -/

namespace Controllers

/-- A Go slice over a backing array: `arr` is the backing array (its length
is the capacity) and `len` the slice length, with `len ≤ arr.length`. All
slice expressions in `removeBackendFromGlobalBackends` keep offset 0 into
the same backing array, so the offset is not modelled. -/
structure GoSlice (α : Type) where
  arr : List α
  len : Nat

/-- The elements a Go slice holds. -/
def GoSlice.elems (s : GoSlice α) : List α := s.arr.take s.len

/-- The Go statement
`GlobalBackends = append(GlobalBackends[:i], GlobalBackends[i+1:]...)`,
with `none` modelling a run-time panic. `s[:i]` is legal for `i ≤ cap`
(a slice's *explicit* high index may run up to its capacity). In
`s[i+1:]` the missing high index defaults to the slice *length*, so it is
`s[i+1 : s.len]`, a slice-bounds panic when `i + 1 > s.len` (low must not
exceed high); when legal it holds the elements `arr[i+1 .. len-1]`, and
`append` copies them into the backing array starting at index `i`. -/
def GoSlice.removeAt (s : GoSlice α) (i : Nat) : Option (GoSlice α) :=
  if i ≤ s.arr.length ∧ i + 1 ≤ s.len then
    let tail := (s.arr.take s.len).drop (i + 1)
    some { arr := s.arr.take i ++ tail ++ s.arr.drop (i + tail.length)
           len := i + tail.length }
  else none

/-- `controllers.removeBackendFromGlobalBackends`, with `none` modelling a
run-time panic escaping the function. The Go `for i, gb := range
logsAPI.GlobalBackends` loop captures the slice header once (the original
length), but reads `gb` from the shared backing array, which the inner
`append`s mutate; the `continue` continues the *inner* loop over
`backends`. `hashG`/`hashB` stand for `utils.Hash` (MD5 of the JSON
encoding) on the two registration types; its error is discarded by the
source (`hashA, _ := utils.Hash(gb)`). -/
def removeBackendFromGlobalBackends (hashG : α → String) (hashB : β → String)
    (globalBackends : GoSlice α) (backends : List β) : Option (GoSlice α) :=
  (List.range globalBackends.len).foldlM
    (fun acc i =>
      match acc.arr.get? i with
      | none => some acc
      | some gb =>
        backends.foldlM
          (fun acc2 b => if hashG gb = hashB b then acc2.removeAt i else some acc2)
          acc)
    globalBackends

example :
    removeBackendFromGlobalBackends (fun n : Nat => toString n) (fun n : Nat => toString n)
      ⟨[7, 7], 2⟩ [7] = none := by rfl

example :
    (removeBackendFromGlobalBackends (fun n : Nat => toString n) (fun n : Nat => toString n)
      ⟨[1, 7, 2], 3⟩ [7]).map GoSlice.elems = some [1, 2] := by rfl

example :
    (removeBackendFromGlobalBackends (fun n : Nat => toString n) (fun n : Nat => toString n)
      ⟨[7, 7, 1], 3⟩ [7]).map GoSlice.elems = some [7, 1] := by rfl

end Controllers

/-! ## Theorems -/

/-- C8: `SetDefaults` establishes exactly the documented defaults — `Start`
becomes `"1h"` when empty, `LimitPerItem` becomes 100 when it was 0,
`Limit` becomes 50 when it was ≤ 0, `LimitBytesPerItem` becomes 102400
bytes when it was 0 — and every other field, and every field already
holding a non-default value, is unchanged. -/
theorem setDefaults_exact (t : Logs.SearchParams) :
    t.SetDefaults.Start = (if t.Start = "" then "1h" else t.Start) ∧
    t.SetDefaults.LimitPerItem = (if t.LimitPerItem = 0 then 100 else t.LimitPerItem) ∧
    t.SetDefaults.Limit = (if t.Limit ≤ 0 then 50 else t.Limit) ∧
    t.SetDefaults.LimitBytesPerItem =
      (if t.LimitBytesPerItem = 0 then 102400 else t.LimitBytesPerItem) ∧
    t.SetDefaults.LimitBytes = t.LimitBytes ∧
    t.SetDefaults.Page = t.Page ∧
    t.SetDefaults.Labels = t.Labels ∧
    t.SetDefaults.Query = t.Query ∧
    t.SetDefaults.End = t.End ∧
    t.SetDefaults.Typ = t.Typ ∧
    t.SetDefaults.Id = t.Id ∧
    t.SetDefaults.start = t.start ∧
    t.SetDefaults.end_ = t.end_ := by
  have h : t.SetDefaults =
      { t with
        Start := if t.Start = "" then "1h" else t.Start
        LimitPerItem := if t.LimitPerItem = 0 then 100 else t.LimitPerItem
        Limit := if t.Limit ≤ 0 then 50 else t.Limit
        LimitBytesPerItem := if t.LimitBytesPerItem = 0 then 102400 else t.LimitBytesPerItem } := by
    unfold Logs.SearchParams.SetDefaults
    dsimp only
    split_ifs <;> rfl
  rw [h]
  exact ⟨rfl, rfl, rfl, rfl, rfl, rfl, rfl, rfl, rfl, rfl, rfl, rfl, rfl⟩

/-- The merge step evaluated on a whole candidate list: folding `Append`
concatenates in candidate order, sums the totals, and ends with the *last*
candidate's `nextPage` (`init`'s when there is none), empty or not. -/
theorem append_fold (init : Logs.SearchResults) (others : List Logs.SearchResults) :
    (others.foldl Logs.SearchResults.Append init).Results
        = init.Results ++ (others.map Logs.SearchResults.Results).flatten ∧
    (others.foldl Logs.SearchResults.Append init).Total
        = init.Total + (others.map Logs.SearchResults.Total).sum ∧
    (others.foldl Logs.SearchResults.Append init).NextPage
        = ((others.map Logs.SearchResults.NextPage).getLastD init.NextPage) := by
  induction others generalizing init with
  | nil => simp
  | cons o os ih =>
    refine ⟨?_, ?_, ?_⟩ <;>
      simp only [List.map_cons, List.foldl_cons, List.flatten_cons, List.sum_cons,
        List.getLastD_cons]
    · rw [(ih (init.Append o)).1]
      simp [Logs.SearchResults.Append, List.append_assoc]
    · rw [(ih (init.Append o)).2.1]
      simp [Logs.SearchResults.Append]
      ring
    · rw [(ih (init.Append o)).2.2]
      rfl

/-- C5 (counterexample): merging a result whose `nextPage` is empty does
*not* leave a previously set non-empty `nextPage` in place — `Append`
overwrites `"abc"` with `""`. -/
theorem append_cex :
    (Logs.SearchResults.Append { Total := 1, Results := [], NextPage := "abc" }
        { Total := 0, Results := [], NextPage := "" }).NextPage = "" ∧
    ¬ (Logs.SearchResults.Append { Total := 1, Results := [], NextPage := "abc" }
        { Total := 0, Results := [], NextPage := "" }).NextPage = "abc" :=
  ⟨rfl, by decide⟩

/-- C5 (amended): `Append` concatenates the other result set's records
after the receiver's in order, adds the totals, and sets `nextPage`
unconditionally to the other result set's `nextPage` — so the fold over
several backends ends with the last backend's cursor, whether or not it is
empty. -/
theorem append_amended (r other : Logs.SearchResults) (others : List Logs.SearchResults) :
    (r.Append other).Results = r.Results ++ other.Results ∧
    (r.Append other).Total = r.Total + other.Total ∧
    (r.Append other).NextPage = other.NextPage ∧
    (others.foldl Logs.SearchResults.Append r).NextPage
        = ((others.map Logs.SearchResults.NextPage).getLastD r.NextPage) :=
  ⟨rfl, rfl, rfl, (append_fold r others).2.2⟩

/-- One label entry of a route matches exactly when the query has the key
and its value is among the comma-split configured values. -/
theorem labelEntry_match_iff (q : Logs.SearchParams) (kv : String × String) :
    (match List.lookup kv.1 q.Labels with
      | none => false
      | some qVal => Logs.matchItems qVal (goSplitComma kv.2)) = true ↔
    ∃ qVal, List.lookup kv.1 q.Labels = some qVal ∧ qVal ∈ goSplitComma kv.2 := by
  cases hl : List.lookup kv.1 q.Labels with
  | none => simp [hl]
  | some qVal => simp [hl, Logs.matchItems, List.elem_iff]

/-- `Match` as one boolean conjunction of its three rule components. -/
theorem route_match_eq_and (t : Logs.SearchRoute) (q : Logs.SearchParams) :
    t.Match q =
      ((t.Typ == "" || t.Typ == q.Typ) &&
       (t.IdPrefix == "" || goHasPrefix t.IdPrefix q.Id) &&
       t.Labels.all fun kv =>
         match List.lookup kv.1 q.Labels with
         | none => false
         | some qVal => Logs.matchItems qVal (goSplitComma kv.2)) := by
  unfold Logs.SearchRoute.Match
  cases hA : (t.Typ == "") <;> cases hA2 : (t.Typ == q.Typ) <;>
    cases hB : (t.IdPrefix == "") <;> cases hB2 : goHasPrefix t.IdPrefix q.Id <;>
    simp_all [bne]

/-- C2: a routing rule matches a query iff its type is empty or equal to the
query's, its id prefix is empty or a prefix of the query's id, and every
configured label key is present in the query with a value among the
comma-split configured values; in particular a rule with all fields empty
matches every query. (`collections.MatchItems` is modelled from the spec as
membership in the comma-split list.) -/
theorem route_match_iff (t : Logs.SearchRoute) (q : Logs.SearchParams) (b : Bool) :
    (t.Match q = true ↔
      ((t.Typ = "" ∨ t.Typ = q.Typ) ∧
       (t.IdPrefix = "" ∨ goHasPrefix t.IdPrefix q.Id = true) ∧
       ∀ kv ∈ t.Labels, ∃ qVal, List.lookup kv.1 q.Labels = some qVal ∧
         qVal ∈ goSplitComma kv.2)) ∧
    Logs.SearchRoute.Match ⟨"", "", [], b⟩ q = true := by
  constructor
  · rw [route_match_eq_and]
    simp only [Bool.and_eq_true, Bool.or_eq_true, beq_iff_eq, List.all_eq_true,
      labelEntry_match_iff, and_assoc]
  · rw [route_match_eq_and]
    rfl

/-- C2 (witness): the spec's own example — rule labels
`env ↦ "prod,staging"` match a query with `env = staging`, fail a query
with `env = dev`, fail a query without `env`, and the all-empty rule
matches. -/
theorem route_match_iff_witness :
    Logs.SearchRoute.Match ⟨"", "", [("env", "prod,staging")], false⟩
      { Labels := [("env", "staging")] } = true ∧
    Logs.SearchRoute.Match ⟨"", "", [("env", "prod,staging")], false⟩
      { Labels := [("env", "dev")] } = false ∧
    Logs.SearchRoute.Match ⟨"", "", [("env", "prod,staging")], false⟩
      { Labels := [] } = false ∧
    Logs.SearchRoute.Match ⟨"", "", [], true⟩ { Id := "pod-1", Typ := "VM" } = true := by
  refine ⟨?_, by decide, by decide, ?_⟩
  · exact (route_match_iff ⟨"", "", [("env", "prod,staging")], false⟩
      { Labels := [("env", "staging")] } false).1.mpr
      (by refine ⟨Or.inl rfl, Or.inl rfl, ?_⟩
          intro kv hkv
          simp only [List.mem_singleton] at hkv
          subst hkv
          exact ⟨"staging", rfl, by decide⟩)
  · exact (route_match_iff ⟨"", "", [], false⟩ { Id := "pod-1", Typ := "VM" } true).2

/-- C6: `MatchRoute` returns `(true, a)` where `a` is the additive flag of
the first rule (in configured order) that matches the query, and
`(false, false)` when none matches; being a Lean function of its arguments,
it is pure by construction. -/
theorem matchRoute_first_match (rules : List Logs.SearchRoute) (q : Logs.SearchParams) :
    Logs.MatchRoute rules q =
      (match rules.find? (fun route => route.Match q) with
       | some route => (true, route.IsAdditive)
       | none => (false, false)) := by
  induction rules with
  | nil => rfl
  | cons route rest ih =>
    simp only [Logs.MatchRoute, List.find?]
    by_cases h : route.Match q
    · simp [h]
    · simp only [Bool.not_eq_true] at h
      simp [h, ih]

/-- C3 (counterexample): `Process` removes *every* occurrence of the leading
RFC3339 token (Go `strings.ReplaceAll`), not just the leading one — for
`"2024-01-01T00:00:00Z a 2024-01-01T00:00:00Z"` the result message is
`"a"`, not `"a 2024-01-01T00:00:00Z"`; and when no leading token parses the
message is still whitespace-trimmed, so `" worker crashed"` comes back
modified as `"worker crashed"`, not unmodified. -/
theorem process_cex :
    (Logs.Result.Process { Message := "2024-01-01T00:00:00Z a 2024-01-01T00:00:00Z" }).Message
        = "a" ∧
    ¬ (Logs.Result.Process
        { Message := "2024-01-01T00:00:00Z a 2024-01-01T00:00:00Z" }).Message
        = "a 2024-01-01T00:00:00Z" ∧
    (Logs.Result.Process { Message := " worker crashed" }).Time = "" ∧
    (Logs.Result.Process { Message := " worker crashed" }).Message = "worker crashed" ∧
    ¬ (Logs.Result.Process { Message := " worker crashed" }).Message = " worker crashed" :=
  ⟨by rfl, by decide, by rfl, by rfl, by decide⟩

/-- C3 (amended): splitting the message at the first whitespace run, if the
leading token parses as RFC3339 then `Time` becomes that token and
`Message` becomes the original message with **every occurrence** of that
token removed and surrounding whitespace trimmed; if it does not parse (or
there is no token), `Time` is left unchanged and `Message` is the original
with surrounding whitespace trimmed (all other fields unchanged). -/
theorem process_amended (r : Logs.Result) :
    (∀ tok, firstScanWord r.Message = some tok →
      (isRFC3339 tok = true →
        r.Process = { r with Time := tok
                             Message := goTrimSpace (goReplaceAll r.Message tok "") }) ∧
      (isRFC3339 tok = false →
        r.Process = { r with Message := goTrimSpace r.Message })) ∧
    (firstScanWord r.Message = none →
      r.Process = { r with Message := goTrimSpace r.Message }) := by
  unfold Logs.Result.Process
  constructor
  · intro tok htok
    rw [htok]
    constructor
    · intro hr
      simp only [hr, if_true]
    · intro hr
      simp only [hr, Bool.false_eq_true, if_false]
  · intro htok
    rw [htok]

/-- C3 (witness): the spec's example — `"2024-01-01T00:00:00Z worker
crashed"` yields `Time = "2024-01-01T00:00:00Z"`, `Message = "worker
crashed"`. -/
theorem process_amended_witness :
    firstScanWord "2024-01-01T00:00:00Z worker crashed" = some "2024-01-01T00:00:00Z" ∧
    isRFC3339 "2024-01-01T00:00:00Z" = true ∧
    Logs.Result.Process { Message := "2024-01-01T00:00:00Z worker crashed" } =
      { Time := "2024-01-01T00:00:00Z", Message := "worker crashed" } := by
  refine ⟨rfl, rfl, ?_⟩
  have h := ((process_amended { Message := "2024-01-01T00:00:00Z worker crashed" }).1
      "2024-01-01T00:00:00Z" rfl).1 rfl
  rw [h]
  rfl

/-- When every row's source carries the message field, the conversion loop
drops nothing: `filterMap` is `map`. -/
theorem opensearch_filterMap_eq_map (f : Logs.ElasticSearchFields)
    (l : List OpenSearch.ElasticsearchHit)
    (h : ∀ row ∈ l, (List.lookup f.Message row.Source).isSome = true) :
    (l.filterMap fun row =>
      match List.lookup f.Message row.Source with
      | none => none
      | some _ => some (OpenSearch.rowResult f row)) = l.map (OpenSearch.rowResult f) := by
  induction l with
  | nil => rfl
  | cons a l ih =>
    have ha := h a (List.mem_cons_self a l)
    rw [List.filterMap_cons, List.map_cons]
    cases hl : List.lookup f.Message a.Source with
    | none => rw [hl] at ha; simp at ha
    | some v =>
      dsimp only
      rw [ih (fun row hr => h row (List.mem_cons_of_mem a hr))]

/-- A marshalled JSON array is never the empty string. -/
theorem stringify_arr_ne_empty (l : List JsonValue) :
    OpenSearch.stringify (.arr l) ≠ "" := by
  have he : OpenSearch.stringify (.arr l) =
      "[" ++ String.intercalate "," (jsonMarshalList l) ++ "]" := rfl
  intro hcon
  rw [he] at hcon
  have := congrArg String.length hcon
  simp [String.length_append] at this
  exact absurd this.1.1 (by decide)

/-- C1 (counterexample): with limit `L = 1` and two backend rows (sort keys
`[1]` and `[2]`), the cursor is the stringified sort key of the *last
returned* row, `"[1]"` — not `"[2]"`, the stringified sort key of the
discarded `(L+1)`-th row demanded by the claim. -/
theorem overfetch_nextpage_cex :
    OpenSearch.getNextPage 1
        [{ ID := "a", Sort_ := [.num 1], Source := [("msg", JsonValue.str "m1")] },
         { ID := "b", Sort_ := [.num 2], Source := [("msg", JsonValue.str "m2")] }] = "[1]" ∧
    OpenSearch.stringify (.arr [JsonValue.num 2]) = "[2]" ∧
    ¬ OpenSearch.getNextPage 1
        [{ ID := "a", Sort_ := [.num 1], Source := [("msg", JsonValue.str "m1")] },
         { ID := "b", Sort_ := [.num 2], Source := [("msg", JsonValue.str "m2")] }] =
      OpenSearch.stringify (.arr [JsonValue.num 2]) :=
  ⟨by rfl, by rfl, by decide⟩

/-- C1 (amended): over-fetch pagination with query limit `L ≥ 1`, for rows
whose sources all carry the configured message field: at most `L` rows
back means all rows are returned (normalized, in order) and `nextPage` is
empty; exactly `L + 1` rows back means exactly the first `L` rows are
returned and `nextPage` is non-empty, equal to the stringified
backend-native sort key of the **last returned (`L`-th)** row
(`rows[len-2]`), not of the discarded row. -/
theorem overfetch_pagination (f : Logs.ElasticSearchFields) (L : Nat)
    (rows : List OpenSearch.ElasticsearchHit) (hL : 1 ≤ L)
    (hmsg : ∀ row ∈ rows, (List.lookup f.Message row.Source).isSome = true) :
    (rows.length ≤ L →
      OpenSearch.getResultsFromHits f L rows = rows.map (OpenSearch.rowResult f) ∧
      OpenSearch.getNextPage L rows = "") ∧
    (rows.length = L + 1 →
      OpenSearch.getResultsFromHits f L rows = (rows.take L).map (OpenSearch.rowResult f) ∧
      (OpenSearch.getResultsFromHits f L rows).length = L ∧
      (∃ lastKept, rows.get? (L - 1) = some lastKept ∧
        OpenSearch.getNextPage L rows = OpenSearch.stringify (.arr lastKept.Sort_)) ∧
      OpenSearch.getNextPage L rows ≠ "") := by
  constructor
  · intro hlen
    constructor
    · unfold OpenSearch.getResultsFromHits
      rw [if_neg (by exact_mod_cast Nat.not_lt.mpr hlen)]
      exact opensearch_filterMap_eq_map f rows hmsg
    · unfold OpenSearch.getNextPage
      by_cases h0 : rows.length = 0
      · rw [if_pos h0]
      · rw [if_neg h0, if_pos (by exact_mod_cast hlen)]
  · intro hlen
    have hres : OpenSearch.getResultsFromHits f L rows =
        (rows.take L).map (OpenSearch.rowResult f) := by
      unfold OpenSearch.getResultsFromHits
      rw [if_pos (by rw [hlen]; exact_mod_cast Nat.lt_succ_self L)]
      rw [Int.toNat_natCast]
      exact opensearch_filterMap_eq_map f (rows.take L)
        (fun row hr => hmsg row (List.take_subset L rows hr))
    have hnext : ∃ lastKept, rows.get? (L - 1) = some lastKept ∧
        OpenSearch.getNextPage L rows = OpenSearch.stringify (.arr lastKept.Sort_) := by
      have hlt : L - 1 < rows.length := by omega
      cases hg : rows.get? (L - 1) with
      | none => rw [List.get?_eq_none] at hg; omega
      | some lastKept =>
        refine ⟨lastKept, rfl, ?_⟩
        unfold OpenSearch.getNextPage
        rw [if_neg (by omega), if_neg (by push_cast [hlen]; omega)]
        have h2 : rows.length - 2 = L - 1 := by omega
        rw [h2, hg]
    refine ⟨hres, ?_, hnext, ?_⟩
    · rw [hres]
      simp [List.length_take, hlen]
    · obtain ⟨lastKept, _, hnp⟩ := hnext
      rw [hnp]
      exact stringify_arr_ne_empty lastKept.Sort_

/-- C1 (witness): limit 1, two rows with message field `"msg"` — the first
row comes back normalized and the cursor is non-empty. -/
theorem overfetch_pagination_witness :
    OpenSearch.getResultsFromHits ⟨"time", "msg", []⟩ 1
        [{ ID := "a", Sort_ := [.num 1], Source := [("msg", JsonValue.str "m1")] },
         { ID := "b", Sort_ := [.num 2], Source := [("msg", JsonValue.str "m2")] }] =
      [{ Id := "a", Time := "", Message := "m1", Labels := [] }] ∧
    OpenSearch.getNextPage 1
        [{ ID := "a", Sort_ := [.num 1], Source := [("msg", JsonValue.str "m1")] },
         { ID := "b", Sort_ := [.num 2], Source := [("msg", JsonValue.str "m2")] }] ≠ "" := by
  have h := (overfetch_pagination ⟨"time", "msg", []⟩ 1
      [{ ID := "a", Sort_ := [.num 1], Source := [("msg", JsonValue.str "m1")] },
       { ID := "b", Sort_ := [.num 2], Source := [("msg", JsonValue.str "m2")] }]
      (le_refl 1) (by decide)).2 rfl
  exact ⟨h.1.trans (by rfl), h.2.2.2⟩

/-- C4: evaluating `removeBackendFromGlobalBackends` at the claim's
scenario, for every hash function. With the registry holding exactly the
two registrations of identical configuration (hence identical content
hash) and a deregistration list containing one registration with that
hash, the call does *not* remove both occurrences — it panics: the loop
mutates `GlobalBackends` while ranging over it, so at the second matching
index it evaluates `GlobalBackends[2:]` on a slice of length 1, and the
missing high index defaults to that length, a slice-bounds panic
(`s[2:1]`). And with a third, non-matching registration appended
(`[a, a, x]`, so the backing array shifts instead of running out), the
call returns without panicking but leaves one occurrence of the matching
registration registered. The claim (and spec §8) say both occurrences are
removed. -/
theorem dereg_identical_pair_panics (h : Nat → String) (a x : Nat)
    (hx : h x ≠ h a) :
    Controllers.removeBackendFromGlobalBackends h h ⟨[a, a], 2⟩ [a] = none ∧
    (Controllers.removeBackendFromGlobalBackends h h ⟨[a, a, x], 3⟩ [a]).map
        Controllers.GoSlice.elems = some [a, x] := by
  constructor
  · unfold Controllers.removeBackendFromGlobalBackends
    simp [List.range_succ, Controllers.GoSlice.removeAt, List.foldlM]
  · unfold Controllers.removeBackendFromGlobalBackends
    simp [List.range_succ, Controllers.GoSlice.removeAt, List.foldlM, hx,
      Controllers.GoSlice.elems]

/-- C4 (witness): the panic and the silent under-removal at a concrete
hash function and concrete registrations. -/
theorem dereg_identical_pair_panics_witness :
    toString (1 : Nat) ≠ toString (7 : Nat) ∧
    Controllers.removeBackendFromGlobalBackends (fun n : Nat => toString n)
        (fun n : Nat => toString n) ⟨[7, 7], 2⟩ [7] = none ∧
    (Controllers.removeBackendFromGlobalBackends (fun n : Nat => toString n)
        (fun n : Nat => toString n) ⟨[7, 7, 1], 3⟩ [7]).map
        Controllers.GoSlice.elems = some [7, 1] := by
  refine ⟨by decide, ?_, ?_⟩
  · exact (dereg_identical_pair_panics (fun n : Nat => toString n) 7 1 (by decide)).1
  · exact (dereg_identical_pair_panics (fun n : Nat => toString n) 7 1 (by decide)).2

/-- C7: `GetStart` memoizes the resolved start instant — once a call has
resolved (and cached) some instant `t`, every later call, at any current
time `now2`, returns the identical instant and leaves the receiver
unchanged instead of recomputing against the clock. -/
theorem getStart_memoized (p p2 : Logs.SearchParams) (now1 now2 t : Int)
    (h : Logs.SearchParams.GetStart now1 p = (some t, p2)) :
    Logs.SearchParams.GetStart now2 p2 = (some t, p2) := by
  have hcache : p2.start = some t := by
    unfold Logs.SearchParams.GetStart at h
    cases hs : p.start with
    | some t0 =>
      rw [hs] at h
      dsimp only at h
      obtain ⟨h1, h2⟩ := Prod.mk.injEq .. ▸ h
      rw [← h2, hs, Option.some.injEq] at *
      exact hs.trans (by rw [h1])
    | none =>
      rw [hs] at h
      dsimp only at h
      cases hd : parseAgeDuration p.Start with
      | some d =>
        rw [hd] at h
        dsimp only at h
        obtain ⟨h1, h2⟩ := Prod.mk.injEq .. ▸ h
        rw [← h2]
        dsimp only
        rw [h1]
      | none =>
        rw [hd] at h
        dsimp only at h
        cases hr : parseRFC3339? p.Start with
        | some t0 =>
          rw [hr] at h
          dsimp only at h
          obtain ⟨h1, h2⟩ := Prod.mk.injEq .. ▸ h
          rw [← h2]
          dsimp only
          rw [h1]
        | none =>
          rw [hr] at h
          dsimp only at h
          exact absurd (Prod.mk.injEq .. ▸ h).1 (by simp)
  unfold Logs.SearchParams.GetStart
  rw [hcache]

/-- C7 (witness): with `Start = "1h"`, resolving at `now = 10000` caches
`6400`; a later call at `now = 99999` still returns `6400` and the same
state. -/
theorem getStart_memoized_witness :
    Logs.SearchParams.GetStart 10000 { Start := "1h" } =
      (some 6400, { Start := "1h", start := some 6400 }) ∧
    Logs.SearchParams.GetStart 99999 { Start := "1h", start := some 6400 } =
      (some 6400, { Start := "1h", start := some 6400 }) :=
  ⟨by rfl, getStart_memoized { Start := "1h" } _ 10000 99999 6400 (by rfl)⟩

/-- C9: the ElasticSearch adapter tolerates a missing or malformed
hits/total section: a decoded body whose `hits` is absent or not an object,
or whose `hits.hits` is absent or not an array, yields the empty
`SearchResults` with a nil error; and a `total` that is absent or not an
object, or a `total.value` that is not a number, yields a total count of
0. -/
theorem elastic_tolerates_malformed (r hits total : List (String × JsonValue)) :
    ((List.lookup "hits" r).bind JsonValue.asObj = none →
      ElasticSearch.searchFromDecoded r = ({}, none)) ∧
    (∀ hits2, (List.lookup "hits" r).bind JsonValue.asObj = some hits2 →
      (List.lookup "hits" hits2).bind JsonValue.asArr = none →
      ElasticSearch.searchFromDecoded r = ({}, none)) ∧
    ((List.lookup "total" hits).bind JsonValue.asObj = none →
      ElasticSearch.getTotalResultsCount hits = 0) ∧
    ((List.lookup "total" hits).bind JsonValue.asObj = some total →
      (List.lookup "value" total).bind JsonValue.asNum = none →
      ElasticSearch.getTotalResultsCount hits = 0) := by
  refine ⟨?_, ?_, ?_, ?_⟩
  · intro h
    unfold ElasticSearch.searchFromDecoded
    rw [h]
  · intro hits2 h1 h2
    unfold ElasticSearch.searchFromDecoded
    rw [h1]
    dsimp only
    rw [h2]
  · intro h
    unfold ElasticSearch.getTotalResultsCount
    rw [h]
  · intro h1 h2
    unfold ElasticSearch.getTotalResultsCount
    rw [h1]
    dsimp only
    rw [h2]

/-- C9 (witness): concrete malformed bodies — a string-valued `hits`, an
object `hits` whose inner `hits` is a number, a numeric `total`, and a
`total` whose `value` is a string — all yield the empty result / zero
count. -/
theorem elastic_tolerates_malformed_witness :
    ElasticSearch.searchFromDecoded [("hits", .str "x")] = ({}, none) ∧
    ElasticSearch.searchFromDecoded [("hits", .obj [("hits", .num 4)])] = ({}, none) ∧
    ElasticSearch.getTotalResultsCount [("total", .num 3)] = 0 ∧
    ElasticSearch.getTotalResultsCount [("total", .obj [("value", .str "many")])] = 0 :=
  ⟨(elastic_tolerates_malformed [("hits", .str "x")] [] []).1 rfl,
   (elastic_tolerates_malformed [("hits", .obj [("hits", .num 4)])] [] []).2.1
     [("hits", .num 4)] rfl rfl,
   (elastic_tolerates_malformed [] [("total", .num 3)] []).2.2.1 rfl,
   (elastic_tolerates_malformed [] [("total", .obj [("value", .str "many")])]
     [("value", .str "many")]).2.2.2 rfl rfl⟩

/-- C10: the ElasticSearch adapter never advances pagination — its
`getNextPage` is constantly `""`, and any successful `Search` (modelled
from the decoded response body on) carries an empty `NextPage` and a nil
error. -/
theorem elastic_never_paginates (hits : List (String × JsonValue))
    (r : List (String × JsonValue)) :
    ElasticSearch.getNextPage hits = "" ∧
    (ElasticSearch.searchFromDecoded r).1.NextPage = "" ∧
    (ElasticSearch.searchFromDecoded r).2 = none := by
  unfold ElasticSearch.searchFromDecoded
  refine ⟨rfl, ?_, ?_⟩ <;>
    · cases h1 : (List.lookup "hits" r).bind JsonValue.asObj with
      | none => rfl
      | some hits2 =>
        dsimp only
        cases h2 : (List.lookup "hits" hits2).bind JsonValue.asArr with
        | none => rfl
        | some data => rfl
